import Mathlib

/-!
Verification of the VaultBox encrypted mailstore (`src/email_db.py`,
`src/redis_to_db_worker.py`, `src/MailHandler.py`) against its
natural-language specification.

The development shallowly embeds the Python source: SQLite tables become
Lean lists of rows, the Fernet cipher becomes an explicit `Cipher` record
with a nonce counter (each encryption call consumes a fresh nonce), bytes
become `List Nat`, and HMAC-SHA256 / PBKDF2 are implemented concretely so
that token hashes evaluate inside the kernel.
-/

set_option maxRecDepth 40000
set_option autoImplicit false

namespace VaultBox

/-! ## SHA-256 over byte lists (bytes are `Nat`, truncated with `% 2^32` on words) -/

/-- Truncate to a 32-bit word. -/
def m32 (x : Nat) : Nat := x % 4294967296

/-- 32-bit right rotation. -/
def rotr32 (x n : Nat) : Nat := m32 ((x >>> n) ||| (x <<< (32 - n)))

/-- 32-bit bitwise complement. -/
def wnot (x : Nat) : Nat := x ^^^ 4294967295

def bigSigma0 (x : Nat) : Nat := (rotr32 x 2) ^^^ (rotr32 x 13) ^^^ (rotr32 x 22)
def bigSigma1 (x : Nat) : Nat := (rotr32 x 6) ^^^ (rotr32 x 11) ^^^ (rotr32 x 25)
def smallSigma0 (x : Nat) : Nat := (rotr32 x 7) ^^^ (rotr32 x 18) ^^^ (x >>> 3)
def smallSigma1 (x : Nat) : Nat := (rotr32 x 17) ^^^ (rotr32 x 19) ^^^ (x >>> 10)

/-- The 64 SHA-256 round constants. -/
def shaK : List Nat :=
  [1116352408, 1899447441, 3049323471, 3921009573, 961987163, 1508970993,
   2453635748, 2870763221, 3624381080, 310598401, 607225278, 1426881987,
   1925078388, 2162078206, 2614888103, 3248222580, 3835390401, 4022224774,
   264347078, 604807628, 770255983, 1249150122, 1555081692, 1996064986,
   2554220882, 2821834349, 2952996808, 3210313671, 3336571891, 3584528711,
   113926993, 338241895, 666307205, 773529912, 1294757372, 1396182291,
   1695183700, 1986661051, 2177026350, 2456956037, 2730485921, 2820302411,
   3259730800, 3345764771, 3516065817, 3600352804, 4094571909, 275423344,
   430227734, 506948616, 659060556, 883997877, 958139571, 1322822218,
   1537002063, 1747873779, 1955562222, 2024104815, 2227730452, 2361852424,
   2428436474, 2756734187, 3204031479, 3329325298]

/-- SHA-256 working state: eight 32-bit words. -/
structure Sha8 where
  a : Nat
  b : Nat
  c : Nat
  d : Nat
  e : Nat
  f : Nat
  g : Nat
  h : Nat
deriving DecidableEq

/-- SHA-256 initial hash value. -/
def shaInit : Sha8 :=
  ⟨1779033703, 3144134277, 1013904242, 2773480762, 1359893119, 2600822924, 528734635, 1541459225⟩

/-- Group a 64-byte block into sixteen big-endian 32-bit words. -/
def blockWords : List Nat → List Nat
  | b0 :: b1 :: b2 :: b3 :: rest => (((b0 * 256 + b1) * 256 + b2) * 256 + b3) :: blockWords rest
  | _ => []

/-- Extend the 16 message words to 64 schedule words.
The accumulator is kept reversed so that `w[t-2]` is `acc.getD 1`. -/
def schedRest : Nat → List Nat → List Nat
  | 0, acc => acc.reverse
  | n + 1, acc =>
      schedRest n
        (m32 (smallSigma1 (acc.getD 1 0) + acc.getD 6 0 +
              smallSigma0 (acc.getD 14 0) + acc.getD 15 0) :: acc)

def msgSchedule (block : List Nat) : List Nat :=
  schedRest 48 (blockWords block).reverse

/-- One SHA-256 round, consuming a `(constant, scheduleWord)` pair. -/
def shaRound (s : Sha8) (kw : Nat × Nat) : Sha8 :=
  let t1 := m32 (s.h + bigSigma1 s.e + ((s.e &&& s.f) ^^^ (wnot s.e &&& s.g)) + kw.1 + kw.2)
  let t2 := m32 (bigSigma0 s.a + ((s.a &&& s.b) ^^^ (s.a &&& s.c) ^^^ (s.b &&& s.c)))
  ⟨m32 (t1 + t2), s.a, s.b, s.c, m32 (s.d + t1), s.e, s.f, s.g⟩

/-- Compress one 64-byte block into the running state. -/
def shaCompress (st : Sha8) (block : List Nat) : Sha8 :=
  let fin := (shaK.zip (msgSchedule block)).foldl shaRound st
  ⟨m32 (st.a + fin.a), m32 (st.b + fin.b), m32 (st.c + fin.c), m32 (st.d + fin.d),
   m32 (st.e + fin.e), m32 (st.f + fin.f), m32 (st.g + fin.g), m32 (st.h + fin.h)⟩

/-- SHA-256 padding: append 0x80, zeros, and the 64-bit big-endian bit length. -/
def shaPad (msg : List Nat) : List Nat :=
  let L := msg.length
  let k := (64 - ((L + 9) % 64)) % 64
  let bl := 8 * L
  msg ++ [0x80] ++ List.replicate k 0 ++
    [(bl >>> 56) % 256, (bl >>> 48) % 256, (bl >>> 40) % 256, (bl >>> 32) % 256,
     (bl >>> 24) % 256, (bl >>> 16) % 256, (bl >>> 8) % 256, bl % 256]

/-- Fold the compression function over consecutive 64-byte blocks.
Structural fuel recursion (so the kernel can evaluate it); each iteration
consumes 64 bytes, so `bs.length` units of fuel always suffice. -/
def shaBlocksFuel : Nat → Sha8 → List Nat → Sha8
  | 0, st, _ => st
  | n + 1, st, bs =>
      if bs = [] then st
      else shaBlocksFuel n (shaCompress st (bs.take 64)) (bs.drop 64)

def shaBlocks (st : Sha8) (bs : List Nat) : Sha8 := shaBlocksFuel bs.length st bs

/-- Big-endian bytes of a 32-bit word. -/
def wordBytes (x : Nat) : List Nat :=
  [(x >>> 24) % 256, (x >>> 16) % 256, (x >>> 8) % 256, x % 256]

/-- SHA-256 digest of a byte list. -/
def sha256 (msg : List Nat) : List Nat :=
  let st := shaBlocks shaInit (shaPad msg)
  wordBytes st.a ++ wordBytes st.b ++ wordBytes st.c ++ wordBytes st.d ++
  wordBytes st.e ++ wordBytes st.f ++ wordBytes st.g ++ wordBytes st.h

/-- HMAC-SHA256 (RFC 2104) with block size 64. -/
def hmacSha256 (key msg : List Nat) : List Nat :=
  let k0 := if 64 < key.length then sha256 key else key
  let kp := k0 ++ List.replicate (64 - k0.length) 0
  sha256 ((kp.map (· ^^^ 0x5c)) ++ sha256 ((kp.map (· ^^^ 0x36)) ++ msg))

/-- Lowercase hex digit, as produced by Python `hexdigest`. -/
def hexChar (n : Nat) : Char := if n < 10 then Char.ofNat (48 + n) else Char.ofNat (87 + n)

def byteHex (b : Nat) : List Char := [hexChar ((b / 16) % 16), hexChar (b % 16)]

/-- The characters of the hex digest of a byte list. -/
def hexdigestChars (bs : List Nat) : List Char := bs.flatMap byteHex

/-- UTF-8 encoding of one character (Python `str.encode()`). -/
def charUtf8 (c : Char) : List Nat :=
  let n := c.toNat
  if n < 0x80 then [n]
  else if n < 0x800 then [0xc0 ||| (n >>> 6), 0x80 ||| (n &&& 0x3f)]
  else if n < 0x10000 then
    [0xe0 ||| (n >>> 12), 0x80 ||| ((n >>> 6) &&& 0x3f), 0x80 ||| (n &&& 0x3f)]
  else
    [0xf0 ||| (n >>> 18), 0x80 ||| ((n >>> 12) &&& 0x3f),
     0x80 ||| ((n >>> 6) &&& 0x3f), 0x80 ||| (n &&& 0x3f)]

/-- UTF-8 bytes of a string (Python `str.encode()`). -/
def strBytes (s : String) : List Nat := s.data.flatMap charUtf8

/-- Pointwise xor of two byte lists. -/
def xorBytes (a b : List Nat) : List Nat := (a.zip b).map fun p => p.1 ^^^ p.2

/-- 4-byte big-endian block index, as used by PBKDF2. -/
def intBE4 (i : Nat) : List Nat := [(i >>> 24) % 256, (i >>> 16) % 256, (i >>> 8) % 256, i % 256]

/-- Iterate `U_{j+1} = HMAC(pwd, U_j)`, xoring into the accumulator. -/
def pbkdf2Iter (pwd : List Nat) : Nat → List Nat → List Nat → List Nat
  | 0, _, acc => acc
  | n + 1, u, acc =>
      let u' := hmacSha256 pwd u
      pbkdf2Iter pwd n u' (xorBytes acc u')

/-- First output block of PBKDF2-HMAC-SHA256 (dkLen = 32 = one SHA-256 digest,
which is `hashlib.pbkdf2_hmac`'s default dklen for sha256). -/
def pbkdf2Sha256 (pwd salt : List Nat) (iters : Nat) : List Nat :=
  let u1 := hmacSha256 pwd (salt ++ intBE4 1)
  pbkdf2Iter pwd (iters - 1) u1 u1

/-- `EmailDB.__init__`: `self.token_key = hashlib.pbkdf2_hmac('sha256',
self.encryption_key, b'search_tokens', 100000)[:32]`. -/
def deriveTokenKey (encKey : List Nat) : List Nat :=
  (pbkdf2Sha256 encKey (strBytes "search_tokens") 100000).take 32

/-- `EmailDB._hash_token`: HMAC over `f"{source}:{token}"`, hexdigest truncated
to 16 characters. -/
def hash_token (tokenKey : List Nat) (token source : String) : String :=
  String.mk ((hexdigestChars (hmacSha256 tokenKey (strBytes (source ++ ":" ++ token)))).take 16)

/-- Modelled from the spec: `TokenHash(source, token) =
hex(HMAC-SHA256(K_t, source + ":" + token))[0..16]` where
`K_t = PBKDF2-HMAC-SHA256(K_f, salt="search_tokens", iterations=100000, dkLen=32)`. -/
def TokenHashSpec (fieldKey : List Nat) (source token : String) : String :=
  String.mk ((hexdigestChars (hmacSha256
    (pbkdf2Sha256 fieldKey (strBytes "search_tokens") 100000)
    (strBytes (source ++ ":" ++ token)))).take 16)



/-! ## Tokenizer (`EmailDB._extract_tokens`)

The Python tokenizer uses `re.findall` with three patterns.  We model the
exact leftmost, non-overlapping, greedy-with-backtracking semantics of the
two patterns used, restricted to ASCII (all inputs in the claims are
ASCII; Python's `\w` additionally matches non-ASCII word characters). -/

/-- Python `\w` (ASCII part): `[a-zA-Z0-9_]`. -/
def isWordChar (c : Char) : Bool := c.isAlphanum || c = '_'

/-- The local-part class `[a-zA-Z0-9._%+-]` of the email pattern. -/
def isLocalChar (c : Char) : Bool :=
  c.isAlphanum || c = '.' || c = '_' || c = '%' || c = '+' || c = '-'

/-- The domain class `[a-zA-Z0-9.-]` of the email pattern. -/
def isDomChar (c : Char) : Bool := c.isAlphanum || c = '.' || c = '-'

/-- The TLD class `[a-zA-Z]`. -/
def isTldChar (c : Char) : Bool := c.isAlpha

/-- Python `str.lower()` (ASCII). -/
def pyLower (s : String) : String := String.mk (s.data.map Char.toLower)

/-- Python `str.strip()`: remove leading and trailing whitespace. -/
def pyStrip (s : String) : String :=
  String.mk (((s.data.dropWhile Char.isWhitespace).reverse.dropWhile Char.isWhitespace).reverse)

/-- Split off the maximal run of characters satisfying `p`. -/
def takeRun (p : Char → Bool) (cs : List Char) : List Char × List Char :=
  (cs.takeWhile p, cs.dropWhile p)

/-- All ways to split a list at a `'.'` character, left to right:
`(before, after)` pairs. -/
def dotSplits : List Char → List (List Char × List Char)
  | [] => []
  | c :: cs =>
      (if c = '.' then [(([] : List Char), cs)] else []) ++
      (dotSplits cs).map (fun p => (c :: p.1, p.2))

/-- Is there a word boundary just before `next` (the character following the
candidate match, `none` at end of text)? -/
def boundaryAfterOk (next : Option Char) : Bool :=
  match next with
  | none => true
  | some c => !(isWordChar c)

/-- Check one candidate split `(before-dot, after-dot)` of the maximal
domain-character run against `\.[a-zA-Z]{2,}\b`: the prefix must be nonempty,
the maximal alphabetic run after the dot must have length ≥ 2 and be followed
by a word boundary.  Returns `(consumed within the run, leftover)`. -/
def validDomSplit (nextAfterD : Option Char) (p : List Char × List Char) :
    Option (List Char × List Char) :=
  let tld := p.2.takeWhile isTldChar
  let rest := p.2.drop tld.length
  if !p.1.isEmpty && 2 ≤ tld.length &&
      boundaryAfterOk (match rest with | [] => nextAfterD | c :: _ => some c) then
    some (p.1 ++ '.' :: tld, rest)
  else none

/-- Attempt to match the email pattern starting exactly at the head of `cs`
(the leading `\b` has already been checked by the caller).  The local part is
forced to be the maximal `isLocalChar` run (backtracking cannot shorten it
because `'@'` is not a local character); the domain is resolved greedily,
trying `'.'` positions from the right.  Returns `(match, remaining text)`. -/
def tryEmailHere (cs : List Char) : Option (List Char × List Char) :=
  let (loc, r1) := takeRun isLocalChar cs
  if loc.isEmpty then none
  else
    match r1 with
    | '@' :: r2 =>
        let (d, r3) := takeRun isDomChar r2
        match (dotSplits d).reverse.findSome? (validDomSplit r3.head?) with
        | some (dused, dleft) => some (loc ++ '@' :: dused, dleft ++ r3)
        | none => none
    | _ => none

/-- `re.findall(email_pattern, text)`: scan left to right; at each position
with a word boundary try the pattern; on success continue after the match
(the last matched character is alphabetic, hence a word character). -/
def scanEmails : Nat → Bool → List Char → List (List Char)
  | 0, _, _ => []
  | _, _, [] => []
  | fuel + 1, prevW, c :: rest =>
      if (isWordChar c) != prevW then
        match tryEmailHere (c :: rest) with
        | some (m, rest') => m :: scanEmails fuel true rest'
        | none => scanEmails fuel (isWordChar c) rest
      else scanEmails fuel (isWordChar c) rest

/-- Maximal word-character runs of the text (`\b\w{3,}\b` matches exactly the
maximal runs of length ≥ 3, found in order). -/
def wordRunsAux : List Char → List Char → List (List Char)
  | [], cur => if cur.isEmpty then [] else [cur.reverse]
  | c :: cs, cur =>
      if isWordChar c then wordRunsAux cs (c :: cur)
      else if cur.isEmpty then wordRunsAux cs []
      else cur.reverse :: wordRunsAux cs []

def wordRuns (cs : List Char) : List (List Char) := wordRunsAux cs []

/-- Add a token to the accumulated token list if not already present.
Python uses a `set`; we keep insertion order (the claims are insensitive to
the order of the returned collection). -/
def addTok (acc : List String) (t : String) : List String :=
  if t ∈ acc then acc else acc ++ [t]

/-- `EmailDB._extract_tokens`. -/
def extract_tokens (text : String) : List String :=
  if text = "" then []
  else
    let cs := (pyStrip (pyLower text)).data
    let emails := scanEmails cs.length false cs
    let step1 := emails.foldl (fun acc m =>
      let acc1 := addTok acc (String.mk m)
      if m.contains '@' then
        let loc := m.takeWhile (· ≠ '@')
        let dom := (m.dropWhile (· ≠ '@')).drop 1
        let acc2 := if 3 ≤ loc.length then addTok acc1 (String.mk loc) else acc1
        if 3 ≤ dom.length then addTok acc2 (String.mk dom) else acc2
      else acc1) []
    let words := (wordRuns cs).filter (fun w => 3 ≤ w.length)
    let step2 := words.foldl (fun acc w => addTok acc (String.mk w)) step1
    let wl := words.filter (fun w => 2 ≤ w.length)
    let bigrams := (wl.zip wl.tail).map (fun p => String.mk (p.1 ++ '_' :: p.2))
    bigrams.foldl addTok step2

/-- The anchored full-email check of `_simple_token_search`:
`re.match(r'^[a-zA-Z0-9._%+-]+@[a-zA-Z0-9.-]+\.[a-zA-Z]{2,}$', s)`.
The whole string must decompose as a nonempty local part, `'@'`, a nonempty
domain prefix, `'.'`, and a trailing alphabetic run of length ≥ 2; only the
maximal trailing alphabetic run can serve as the TLD. -/
def isFullEmail (s : String) : Bool :=
  let cs := s.data
  let loc := cs.takeWhile isLocalChar
  let r1 := cs.drop loc.length
  !loc.isEmpty &&
    (match r1 with
     | '@' :: r2 =>
         r2.all isDomChar &&
           (let tld := (r2.reverse.takeWhile isTldChar).reverse
            let stem := r2.take (r2.length - tld.length)
            2 ≤ tld.length &&
              (match stem.reverse with
               | '.' :: pre => !pre.isEmpty
               | _ => false))
     | _ => false)

/-! ## The mailstore state

SQLite tables are lists of rows in table (insertion) order.  The Fernet
cipher is an explicit record; each encryption call consumes a fresh nonce,
modelled by an explicit nonce-counter argument threaded by the callers.
Stored field values are ciphertext bytes, i.e. SQLite BLOBs; SQL parameters
are tagged with their storage class because SQLite never equates values of
different storage classes (a TEXT parameter never equals a BLOB column). -/

/-- The authenticated cipher (`cryptography.fernet.Fernet`): `enc` takes the
fresh-nonce index; `dec` returns `none` when authentication fails
(`InvalidToken`). -/
structure Cipher where
  enc : Nat → String → String
  dec : String → Option String

/-- A row of the `emails` table.  `sender`/`recipient`/`subject`/`body` hold
the stored BLOB bytes (ciphertexts). -/
structure EmailRow where
  id : String
  sender : String
  recipient : String
  subject : String
  body : String
  read : Bool
  arrival_time : String
  tags : String
deriving DecidableEq

/-- A row of the `search_tokens` table. -/
structure TokenRow where
  email_id : String
  token_hash : String
  token_source : String
deriving DecidableEq

/-- The two tables of `emails.db`. -/
structure DBState where
  emails : List EmailRow
  search_tokens : List TokenRow
deriving DecidableEq

/-- An SQL value with its storage class. -/
inductive SqlVal
  | text : String → SqlVal
  | blob : String → SqlVal

/-- SQLite equality: values of different storage classes are never equal. -/
def sqlEqB : SqlVal → SqlVal → Bool
  | .text a, .text b => a == b
  | .blob a, .blob b => a == b
  | _, _ => false

/-- `EmailDB._encrypt_if_needed`: empty/None data is stored as `b""`;
otherwise encrypt under a fresh nonce (Fernet never raises here). -/
def encrypt_if_needed (c : Cipher) (nonce : Nat) (data : String) : String :=
  if data = "" then "" else c.enc nonce data

/-- Strict UTF-8 decoding of a byte list, as Python `bytes.decode()`:
rejects continuation-byte leads, overlong encodings (C0/C1 leads, and the
E0/F0 second-byte floors), surrogate code points (ED leads with second byte
≥ A0), code points above U+10FFFF (leads ≥ F5, F4 with second byte ≥ 90)
and truncated sequences.  `none` models a raised `UnicodeDecodeError`. -/
def utf8Decode : List Nat → Option (List Char)
  | [] => some []
  | b :: bs =>
      if b < 128 then (utf8Decode bs).map (fun cs => Char.ofNat b :: cs)
      else if b < 194 then none
      else if b < 224 then
        match bs with
        | b1 :: r =>
            if 128 ≤ b1 ∧ b1 < 192 then
              (utf8Decode r).map (fun cs => Char.ofNat ((b - 192) * 64 + (b1 - 128)) :: cs)
            else none
        | _ => none
      else if b < 240 then
        match bs with
        | b1 :: b2 :: r =>
            if 128 ≤ b1 ∧ b1 < 192 ∧ 128 ≤ b2 ∧ b2 < 192 ∧
                (b = 224 → 160 ≤ b1) ∧ (b = 237 → b1 < 160) then
              (utf8Decode r).map
                (fun cs => Char.ofNat (((b - 224) * 64 + (b1 - 128)) * 64 + (b2 - 128)) :: cs)
            else none
        | _ => none
      else if b < 245 then
        match bs with
        | b1 :: b2 :: b3 :: r =>
            if 128 ≤ b1 ∧ b1 < 192 ∧ 128 ≤ b2 ∧ b2 < 192 ∧ 128 ≤ b3 ∧ b3 < 192 ∧
                (b = 240 → 144 ≤ b1) ∧ (b = 244 → b1 < 144) then
              (utf8Decode r).map (fun cs =>
                Char.ofNat ((((b - 240) * 64 + (b1 - 128)) * 64 + (b2 - 128)) * 64 + (b3 - 128))
                  :: cs)
            else none
        | _ => none
      else none

/-- The raw bytes of a stored BLOB cell.  A cell string models the byte
sequence one `Char` per byte (code points 0–255); all-ASCII cells coincide
with their UTF-8 reading, and a cell with a char in 128–255 stands for a
raw high byte as tampering can produce. -/
def cellBytes (s : String) : List Nat := s.data.map Char.toNat

/-- `EmailDB._decrypt_if_needed`: empty data yields `""`; on a decryption
failure the `except` handler returns `data.decode()` for the bytes read
from a BLOB column — and that decode itself raises `UnicodeDecodeError`
when the raw bytes are not valid UTF-8.  `none` models that propagated
exception; the function has no handler for it. -/
def decrypt_if_needed (c : Cipher) (data : String) : Option String :=
  if data = "" then some ""
  else
    match c.dec data with
    | some p => some p
    | none => (utf8Decode (cellBytes data)).map String.mk

/-- `EmailDB._store_search_tokens`: one `search_tokens` row per
`(field token, source)` pair, in the order the Python loops emit them. -/
def storeSearchTokens (key : List Nat) (email_id sender recipient subject body : String) :
    List TokenRow :=
  [(extract_tokens sender, "sender"), (extract_tokens recipient, "recipient"),
   (extract_tokens subject, "subject"), (extract_tokens body, "body")].flatMap
    (fun p => p.1.map (fun t => ⟨email_id, hash_token key t p.2, p.2⟩))

/-- `SELECT id FROM emails ORDER BY arrival_time ASC LIMIT 1`: some row with
minimal `arrival_time` (ties are resolved by SQLite in an unspecified way;
we return the first minimal row in table order). -/
def selectOldest : List EmailRow → Option EmailRow
  | [] => none
  | r :: rs =>
      match selectOldest rs with
      | none => some r
      | some m => if m.arrival_time < r.arrival_time then some m else some r

/-- Delete a message row and its token rows. -/
def deleteId (eid : String) (s : DBState) : DBState :=
  { emails := s.emails.filter (fun r => r.id ≠ eid),
    search_tokens := s.search_tokens.filter (fun t => t.email_id ≠ eid) }

/-- The body of `EmailDB._enforce_max_size` as structural fuel recursion.
`szOf` models `os.path.getsize(self.db_path)` as a function of the state.
Each deleting iteration removes at least one email row, so
`s.emails.length + 1` units of fuel make the fuel bound unreachable: the
loop always exits through `szOf s ≤ maxS` or through an empty table. -/
def enforceFuel (szOf : DBState → Nat) (maxS : Nat) : Nat → DBState → DBState
  | 0, s => s
  | n + 1, s =>
      if szOf s ≤ maxS then s
      else
        match selectOldest s.emails with
        | none => s
        | some r => enforceFuel szOf maxS n (deleteId r.id s)

def enforce_max_size (szOf : DBState → Nat) (maxS : Nat) (s : DBState) : DBState :=
  enforceFuel szOf maxS (s.emails.length + 1) s

/-- `sqlite3.IntegrityError` raised on a duplicate PRIMARY KEY. -/
inductive InsertErr
  | duplicateId
deriving DecidableEq

/-- The `emails` row built by `insert_email_with_id`: the four field values
are encrypted under four fresh nonces (in source order), `read` starts
false.  `tagsJson` is the caller-serialized `json.dumps(tags or [])`. -/
def mkEmailRow (c : Cipher) (nonce : Nat)
    (email_id sender recipient subject body arrival_time tagsJson : String) : EmailRow :=
  { id := email_id,
    sender := encrypt_if_needed c nonce sender,
    recipient := encrypt_if_needed c (nonce + 1) recipient,
    subject := encrypt_if_needed c (nonce + 2) subject,
    body := encrypt_if_needed c (nonce + 3) body,
    read := false,
    arrival_time := arrival_time,
    tags := tagsJson }

/-- `EmailDB.insert_email_with_id`.  A duplicate `id` makes the `INSERT`
statement raise `IntegrityError` before any row or token is written, and
the implicit transaction leaves the database unchanged, so the error branch
carries no state.  On success the tokens are stored from the plaintext
arguments and the eviction loop runs after commit. -/
def insert_email_with_id (c : Cipher) (key : List Nat) (szOf : DBState → Nat) (maxS : Nat)
    (nonce : Nat) (email_id sender recipient subject body arrival_time tagsJson : String)
    (s : DBState) : Except InsertErr DBState :=
  if s.emails.any (fun r => r.id == email_id) then .error .duplicateId
  else
    .ok (enforce_max_size szOf maxS
      { emails := s.emails ++ [mkEmailRow c nonce email_id sender recipient subject body arrival_time tagsJson],
        search_tokens := s.search_tokens ++ storeSearchTokens key email_id sender recipient subject body })

/-- The fully decrypted record returned by `get_email_by_id` and (per list
row) by `get_emails_for_recipient`.  `tags` is kept as the raw stored string
(the JSON decoding is not modelled); the HTML-stripping `body_snippet`
derivation is not modelled — `body` carries the full decrypted value. -/
structure DisplayEmail where
  id : String
  sender : String
  recipient : String
  subject : String
  body : String
  is_read : Bool
  arrival_time : String
  tags : String
  size_bytes : Nat
deriving DecidableEq

/-- Building the display record decrypts all four stored fields; `none`
models the construction raising — `_decrypt_if_needed`'s fallback
`data.decode()` failed on one of them and the exception escapes. -/
def displayOfRow (c : Cipher) (r : EmailRow) : Option DisplayEmail :=
  (decrypt_if_needed c r.sender).bind fun sender =>
  (decrypt_if_needed c r.recipient).bind fun recipient =>
  (decrypt_if_needed c r.subject).bind fun subject =>
  (decrypt_if_needed c r.body).map fun body_text =>
  { id := r.id,
    sender := sender,
    recipient := recipient,
    subject := subject,
    body := body_text,
    is_read := r.read,
    arrival_time := r.arrival_time,
    tags := r.tags,
    size_bytes := (strBytes body_text).length }

/-- WHERE clause of `get_email_by_id` / `mark_email_as_read`: the optional
recipient filter appends `AND recipient = ?` binding the *plaintext* string
`recipient_username` (a TEXT parameter) against the BLOB `recipient` column.
Python truthiness: `None` and `""` add no clause. -/
def rowMatchesIdAndRecipient (email_id : String) (recipient_username : Option String)
    (r : EmailRow) : Bool :=
  r.id == email_id &&
    (match recipient_username with
     | none => true
     | some u => if u = "" then true else sqlEqB (.blob r.recipient) (.text u))

/-- `EmailDB.get_email_by_id`.  The function has no exception handler, so a
decode failure propagates to the caller; `none` covers the two outcomes in
which no message dict is returned — no row matches, or the construction
raised.  No theorem concludes anything from the second case. -/
def get_email_by_id (c : Cipher) (s : DBState) (email_id : String)
    (recipient_username : Option String) : Option DisplayEmail :=
  (s.emails.find? (rowMatchesIdAndRecipient email_id recipient_username)).bind (displayOfRow c)

/-- `EmailDB.mark_email_as_read`: returns the updated state and
`cursor.rowcount > 0`. -/
def mark_email_as_read (s : DBState) (email_id : String)
    (recipient_username : Option String) (read_status : Bool) : DBState × Bool :=
  let p := rowMatchesIdAndRecipient email_id recipient_username
  ({ emails := s.emails.map (fun r => if p r then { r with read := read_status } else r),
     search_tokens := s.search_tokens },
   s.emails.any p)

/-- WHERE clause of `delete_email`: here the comparator is freshly encrypted
(`_encrypt_if_needed(recipient_username)`), i.e. a BLOB parameter. -/
def rowMatchesDelete (c : Cipher) (nonce : Nat) (email_id : String)
    (recipient_username : Option String) (r : EmailRow) : Bool :=
  r.id == email_id &&
    (match recipient_username with
     | none => true
     | some u => if u = "" then true else sqlEqB (.blob r.recipient) (.blob (encrypt_if_needed c nonce u)))

/-- `EmailDB.delete_email`.  Faithful to the source's `cursor` reuse: when
the email DELETE removed at least one row, the token DELETE runs on the same
cursor, and the function returns `cursor.rowcount > 0` of the *last*
statement — the token DELETE's row count. -/
def delete_email (c : Cipher) (nonce : Nat) (s : DBState) (email_id : String)
    (recipient_username : Option String) : DBState × Bool :=
  let p := rowMatchesDelete c nonce email_id recipient_username
  let deletedEmails := (s.emails.filter p).length
  let emails1 := s.emails.filter (fun r => !(p r))
  if 0 < deletedEmails then
    let deletedTokens := (s.search_tokens.filter (fun t => t.email_id == email_id)).length
    ({ emails := emails1,
       search_tokens := s.search_tokens.filter (fun t => !(t.email_id == email_id)) },
     0 < deletedTokens)
  else
    ({ emails := emails1, search_tokens := s.search_tokens }, 0 < deletedEmails)

/-- `SELECT DISTINCT email_id FROM search_tokens WHERE token_hash IN (…)`:
ids of matching rows in table order, first occurrence kept. -/
def distinctAux : List String → List String → List String
  | [], _ => []
  | x :: xs, seen => if x ∈ seen then distinctAux xs seen else x :: distinctAux xs (x :: seen)

def selectDistinct (s : DBState) (hashes : List String) : List String :=
  distinctAux ((s.search_tokens.filter (fun r => hashes.contains r.token_hash)).map
    (fun r => r.email_id)) []

/-- The two exact-match hashes of the full-email fast path
(`for source in ['sender', 'recipient']`). -/
def exactEmailHashes (key : List Nat) (q : String) : List String :=
  ["sender", "recipient"].map (fun src => hash_token key (pyStrip (pyLower q)) src)

def exact_matches (key : List Nat) (s : DBState) (q : String) : List String :=
  selectDistinct s (exactEmailHashes key q)

/-- The fallback hash expansion: every query token against every source. -/
def fallbackHashes (key : List Nat) (q : String) : List String :=
  (extract_tokens q).flatMap (fun t =>
    ["subject", "body", "sender", "recipient"].map (fun src => hash_token key t src))

/-- `EmailDB._simple_token_search`. -/
def simple_token_search (key : List Nat) (s : DBState) (q : String) : List String :=
  if (extract_tokens q).isEmpty then []
  else if isFullEmail (pyStrip q) && !(exact_matches key s q).isEmpty then
    exact_matches key s q
  else selectDistinct s (fallbackHashes key q)

/-- The page record returned by `get_emails_for_recipient`. -/
structure QueryPage where
  items : List DisplayEmail
  total_items : Nat
  total_pages : Nat
  current_page : Nat
  page_size : Nat
deriving DecidableEq

def emptyPage (page pageSize : Nat) : QueryPage :=
  { items := [], total_items := 0, total_pages := 0, current_page := page, page_size := pageSize }

/-- `ORDER BY {sort_by} {sort_order}`, modelled for the two real columns
(`arrival_time`, `read`); SQLite's sort order on ties is unspecified, and we
model it with a merge sort. -/
def rowOrder (sortBy sortOrder : String) (r1 r2 : EmailRow) : Bool :=
  let k1 := if sortBy = "read" then (cond r1.read "1" "0") else r1.arrival_time
  let k2 := if sortBy = "read" then (cond r2.read "1" "0") else r2.arrival_time
  if sortOrder = "ASC" then decide (k1 ≤ k2) else decide (k2 ≤ k1)

/-- The combined WHERE clause of `get_emails_for_recipient`.  The recipient
filter compares the stored BLOB against a *freshly encrypted* comparator. -/
def wherePred (c : Cipher) (nonce : Nat) (searchIds : Option (List String))
    (recipient_username : Option String) (isRead : Option Bool)
    (dateFrom dateTo : Option String) (r : EmailRow) : Bool :=
  (match searchIds with | none => true | some ids => ids.contains r.id) &&
  (match recipient_username with
   | none => true
   | some u => if u = "" then true else sqlEqB (.blob r.recipient) (.blob (encrypt_if_needed c nonce u))) &&
  (match isRead with | none => true | some b => r.read == b) &&
  (match dateFrom with | none => true | some d => decide (d ≤ r.arrival_time)) &&
  (match dateTo with | none => true | some d => decide (r.arrival_time ≤ d))

/-- Insertion sort by a boolean comparator (structural recursion, so the
kernel can evaluate it).  SQLite's ORDER BY returns some permutation sorted
by the key (ties in unspecified order); insertion sort produces one. -/
def insertSorted (le : EmailRow → EmailRow → Bool) (r : EmailRow) : List EmailRow → List EmailRow
  | [] => [r]
  | x :: xs => if le r x then r :: x :: xs else x :: insertSorted le r xs

def sortRows (le : EmailRow → EmailRow → Bool) : List EmailRow → List EmailRow
  | [] => []
  | x :: xs => insertSorted le x (sortRows le xs)

/-- The decrypt-and-display loop over the selected page.  Its
`except Exception: continue` skips a row exactly when building it raises,
i.e. when `_decrypt_if_needed`'s fallback `data.decode()` fails on one of
the four stored fields. -/
def materializeRows (c : Cipher) (rows : List EmailRow) : List DisplayEmail :=
  rows.filterMap (displayOfRow c)

/-- `EmailDB.get_emails_for_recipient`, for the simple-search path (the
`advanced_query` branch and its `is_read` override are not needed by the
claims and are not modelled). -/
def get_emails_for_recipient (c : Cipher) (key : List Nat) (nonce : Nat) (s : DBState)
    (recipient_username : Option String) (page pageSize : Nat) (sortBy sortOrder : String)
    (searchQuery : Option String) (isRead : Option Bool)
    (dateFrom dateTo : Option String) : QueryPage :=
  let offset := (page - 1) * pageSize
  let searchIds : Option (List String) :=
    match searchQuery with
    | some q => if q = "" then none else some (simple_token_search key s q)
    | none => none
  match searchIds with
  | some [] => emptyPage page pageSize
  | _ =>
      let rows := s.emails.filter (wherePred c nonce searchIds recipient_username isRead dateFrom dateTo)
      let total_items := rows.length
      let total_pages := if pageSize = 0 then 0 else (total_items + pageSize - 1) / pageSize
      let sorted := sortRows (rowOrder sortBy sortOrder) rows
      let pageRows := (sorted.drop offset).take pageSize
      { items := materializeRows c pageRows,
        total_items := total_items,
        total_pages := total_pages,
        current_page := page,
        page_size := pageSize }

/-- The queue envelope consumed by `EmailWorker._process_single_email`
(already JSON-decoded; the decode-failure branch drops the blob and is not
modelled). -/
structure Envelope where
  id : String
  sender : String
  recipient : String
  subject : String
  body : String
  arrival_time : String
deriving DecidableEq

/-- `EmailWorker._process_single_email`: insert under the envelope id; any
insert error (in particular the duplicate-key `IntegrityError`) is logged
and the worker continues with the store unchanged. -/
def process_single_email (c : Cipher) (key : List Nat) (szOf : DBState → Nat) (maxS : Nat)
    (nonce : Nat) (s : DBState) (env : Envelope) : DBState :=
  match insert_email_with_id c key szOf maxS nonce env.id env.sender env.recipient
      env.subject env.body env.arrival_time "[]" s with
  | .ok s' => s'
  | .error _ => s

/-- `str(uuid.uuid4())[:23].replace('-', '')` (both `SMTPHandler.handle_message`
and `EmailDB.insert_email`): `replace('-', '')` deletes every dash. -/
def generate_email_id (u : List Char) : List Char :=
  (u.take 23).filter (fun c => c ≠ '-')

def isHexLower (c : Char) : Bool := ("0123456789abcdef".data).contains c

/-- The canonical `str(uuid.uuid4())` shape: five lowercase-hex groups of
sizes 8-4-4-4-12 joined by dashes. -/
def isUuidString (u : List Char) : Prop :=
  ∃ a b c d e : List Char,
    u = a ++ '-' :: b ++ '-' :: c ++ '-' :: d ++ '-' :: e ∧
    a.length = 8 ∧ b.length = 4 ∧ c.length = 4 ∧ d.length = 4 ∧ e.length = 12 ∧
    ((a ++ b ++ c ++ d ++ e).all isHexLower = true)

/-- URL-safe characters (RFC 3986 unreserved set). -/
def urlSafeChar (c : Char) : Bool := c.isAlphanum || c = '-' || c = '_' || c = '.' || c = '~'

/-! ## Concrete artifacts used by closed theorems -/

/-- A concrete cipher instance for closed theorems: `enc` embeds the nonce
index and the payload; `dec` recovers the payload after the first comma and
fails (authentication error) on any string not of this shape. -/
def demoCipher : Cipher where
  enc := fun n p => "E(" ++ Nat.repr n ++ "," ++ p ++ ")"
  dec := fun s =>
    match s.data with
    | 'E' :: '(' :: rest =>
        if rest.getLast? = some ')' then
          some (String.mk ((rest.dropLast.dropWhile (fun ch => ch ≠ ',')).drop 1))
        else none
    | _ => none

end VaultBox

namespace VaultBox

/-! ## Helper lemmas -/

/-- A recipient-filtered lookup predicate never matches: the TEXT parameter
is compared with the BLOB column. -/
lemma rowMatchesIdAndRecipient_false (eid u : String) (hu : u ≠ "") (r : EmailRow) :
    rowMatchesIdAndRecipient eid (some u) r = false := by
  simp [rowMatchesIdAndRecipient, sqlEqB, hu]

/-- A successfully built display record carries its row's id. -/
lemma displayOfRow_id (c : Cipher) (r : EmailRow) (d : DisplayEmail)
    (h : displayOfRow c r = some d) : d.id = r.id := by
  unfold displayOfRow at h
  rcases hs : decrypt_if_needed c r.sender with _ | vs <;> rw [hs] at h
  · exact absurd h (by simp)
  rcases hr2 : decrypt_if_needed c r.recipient with _ | vr <;> rw [hr2] at h
  · exact absurd h (by simp)
  rcases hj : decrypt_if_needed c r.subject with _ | vj <;> rw [hj] at h
  · exact absurd h (by simp)
  rcases hb : decrypt_if_needed c r.body with _ | vb <;> rw [hb] at h
  · exact absurd h (by simp)
  simp only [Option.bind_some, Option.map_some'] at h
  rw [← Option.some.inj h]

end VaultBox

namespace VaultBox

/-! ## C10 -/

/-- C10: when a recipient filter is supplied, `get_email_by_id` and
`mark_email_as_read` compare the plaintext `recipient_username` (a TEXT
parameter) directly against the stored encrypted recipient BLOB; SQLite
never equates values of different storage classes, so for every store the
lookup returns nothing, the update changes nothing, and `MarkRead` returns
false — including for a message whose actual recipient equals the filter. -/
theorem plaintext_recipient_filter_never_matches (c : Cipher) (s : DBState)
    (eid u : String) (b : Bool) (hu : u ≠ "") :
    get_email_by_id c s eid (some u) = none ∧
    (mark_email_as_read s eid (some u) b).2 = false ∧
    (mark_email_as_read s eid (some u) b).1 = s := by
  have hp := rowMatchesIdAndRecipient_false eid u hu
  refine ⟨?_, ?_, ?_⟩
  · unfold get_email_by_id
    rw [List.find?_eq_none.mpr]
    · rfl
    · intro r _ h
      rw [hp r] at h
      exact absurd h (by simp)
  · unfold mark_email_as_read
    simp only [List.any_eq_true]
    simp [hp]
  · unfold mark_email_as_read
    simp only
    refine congrArg (fun l => DBState.mk l s.search_tokens) ?_
    calc s.emails.map (fun r => if rowMatchesIdAndRecipient eid (some u) r then { r with read := b } else r)
        = s.emails.map (fun r => r) := List.map_congr_left (fun r _ => by rw [hp r]; simp)
      _ = s.emails := List.map_id' s.emails

/-- Witness store for C10. -/
def c10state : DBState :=
  { emails := [⟨"m1", "E(0,al)", "E(1,bob)", "E(2,hi)", "E(3,text)", false, "2024-01-01", "[]"⟩],
    search_tokens := [] }

theorem plaintext_recipient_filter_never_matches_witness :
    ("bob" ≠ "") ∧
    (get_email_by_id demoCipher c10state "m1" (some "bob") = none ∧
     (mark_email_as_read c10state "m1" (some "bob") true).2 = false ∧
     (mark_email_as_read c10state "m1" (some "bob") true).1 = c10state) :=
  ⟨by decide, plaintext_recipient_filter_never_matches demoCipher c10state "m1" "bob" true (by decide)⟩

/-! ## C7 -/

/-- C7 failing input: a stored message with zero token rows (its fields
produce no search tokens).  `delete_email` removes the message row, yet
returns false, because the source re-reads `cursor.rowcount` after the
token DELETE (which deleted 0 rows) instead of the email DELETE. -/
def c7state : DBState :=
  { emails := [⟨"m1", "E(0,a@b.c)", "E(1,c@d.e)", "", "", false, "2024-01-01T00:00:00", "[]"⟩],
    search_tokens := [] }

/-- C7: evaluation of the code at the failing input.  The message row
existed and is removed (`Get` afterwards returns nothing, no token row
references the id), but `Delete` returns false, contradicting the claim
that the result is true exactly when the message row existed and was
removed. -/
theorem delete_email_false_despite_removal :
    (delete_email demoCipher 0 c7state "m1" none).2 = false ∧
    (delete_email demoCipher 0 c7state "m1" none).1.emails = [] ∧
    (delete_email demoCipher 0 c7state "m1" none).1.search_tokens = [] ∧
    get_email_by_id demoCipher (delete_email demoCipher 0 c7state "m1" none).1 "m1" none = none := by
  decide

end VaultBox

namespace VaultBox

/-! ## C9 -/

/-- Hex characters are not dashes and are URL-safe. -/
lemma isHexLower_props (ch : Char) (h : isHexLower ch = true) :
    ch ≠ '-' ∧ urlSafeChar ch = true := by
  have hm : ch ∈ ("0123456789abcdef".data) := by
    simpa [isHexLower] using h
  fin_cases hm <;> exact ⟨by decide, by decide⟩

/-- C9 counterexample: for a well-formed `str(uuid.uuid4())` value, the id
produced by `str(u)[:23].replace('-', '')` has length 20, not 23: the
23-character slice still contains three dashes, which `replace` deletes. -/
def uuidExample : List Char := "12345678-9abc-def0-1234-56789abcdef0".data

theorem generate_email_id_not_23 :
    isUuidString uuidExample ∧ (generate_email_id uuidExample).length ≠ 23 :=
  ⟨⟨"12345678".data, "9abc".data, "def0".data, "1234".data, "56789abcdef0".data,
    by decide, by decide, by decide, by decide, by decide, by decide, by decide⟩,
   by decide⟩

/-- C9 amended: every id produced from a canonical `str(uuid.uuid4())` value
is exactly 20 characters long (the 23-character slice covers the groups of
sizes 8, 4, 4 and 4 plus three dashes, and the dashes are deleted), and
every character is a hex digit, hence URL-safe. -/
theorem generate_email_id_length_20 (u : List Char) (h : isUuidString u) :
    (generate_email_id u).length = 20 ∧
    ∀ ch ∈ generate_email_id u, urlSafeChar ch = true := by
  obtain ⟨a, b, c, d, e, rfl, ha, hb, hc, hd, he, hhex⟩ := h
  have hhex' : ∀ ch, ch ∈ a ∨ ch ∈ b ∨ ch ∈ c ∨ ch ∈ d → isHexLower ch = true := by
    intro ch hch
    have : ch ∈ a ++ b ++ c ++ d ++ e := by
      rcases hch with h1 | h1 | h1 | h1 <;> simp [h1]
    have := (List.all_eq_true.mp hhex) ch this
    simpa using this
  have hsplit : a ++ '-' :: b ++ '-' :: c ++ '-' :: d ++ '-' :: e =
      (a ++ '-' :: b ++ '-' :: c ++ '-' :: d) ++ ('-' :: e) := by
    simp
  have hlen : (a ++ '-' :: b ++ '-' :: c ++ '-' :: d).length = 23 := by
    simp [ha, hb, hc, hd]
  have htake : (a ++ '-' :: b ++ '-' :: c ++ '-' :: d ++ '-' :: e).take 23 =
      a ++ '-' :: b ++ '-' :: c ++ '-' :: d := by
    rw [hsplit]
    exact List.take_left' hlen
  have hfa : a.filter (fun ch => !decide (ch = '-')) = a :=
    List.filter_eq_self.mpr (fun ch hch => by
      simpa using (isHexLower_props ch (hhex' ch (Or.inl hch))).1)
  have hfb : b.filter (fun ch => !decide (ch = '-')) = b :=
    List.filter_eq_self.mpr (fun ch hch => by
      simpa using (isHexLower_props ch (hhex' ch (Or.inr (Or.inl hch)))).1)
  have hfc : c.filter (fun ch => !decide (ch = '-')) = c :=
    List.filter_eq_self.mpr (fun ch hch => by
      simpa using (isHexLower_props ch (hhex' ch (Or.inr (Or.inr (Or.inl hch))))).1)
  have hfd : d.filter (fun ch => !decide (ch = '-')) = d :=
    List.filter_eq_self.mpr (fun ch hch => by
      simpa using (isHexLower_props ch (hhex' ch (Or.inr (Or.inr (Or.inr hch))))).1)
  have hgen : generate_email_id (a ++ '-' :: b ++ '-' :: c ++ '-' :: d ++ '-' :: e) =
      a ++ b ++ c ++ d := by
    unfold generate_email_id
    rw [htake]
    simp [List.filter_append, hfa, hfb, hfc, hfd]
  rw [hgen]
  constructor
  · simp [ha, hb, hc, hd]
  · intro ch hch
    have : ch ∈ a ∨ ch ∈ b ∨ ch ∈ c ∨ ch ∈ d := by
      simpa [or_assoc] using (by simpa using hch)
    exact (isHexLower_props ch (hhex' ch this)).2

theorem generate_email_id_length_20_witness :
    isUuidString uuidExample ∧
    ((generate_email_id uuidExample).length = 20 ∧
     ∀ ch ∈ generate_email_id uuidExample, urlSafeChar ch = true) :=
  have hu : isUuidString uuidExample :=
    ⟨"12345678".data, "9abc".data, "def0".data, "1234".data, "56789abcdef0".data,
     by decide, by decide, by decide, by decide, by decide, by decide, by decide⟩
  ⟨hu, generate_email_id_length_20 uuidExample hu⟩

end VaultBox

namespace VaultBox

/-! ## C3 -/

/-- A stored row whose body BLOB has been tampered with: `demoCipher.dec`
fails on it (AEAD authentication failure). -/
def c3row : EmailRow :=
  ⟨"t1", "E(0,al)", "E(1,bob)", "E(2,hi)", "tampered", false, "2024-01-02", "[]"⟩

def c3state : DBState := { emails := [c3row], search_tokens := [] }

/-- C3 counterexample: with a tampered body ciphertext whose decryption
fails, `Get(id)` does NOT return nothing — `_decrypt_if_needed` swallows the
failure and returns the raw stored bytes — and the row is NOT skipped in
list results. -/
theorem tampered_row_not_skipped :
    demoCipher.dec "tampered" = none ∧
    get_email_by_id demoCipher c3state "t1" none ≠ none ∧
    (get_emails_for_recipient demoCipher [] 9 c3state none 1 20 "arrival_time" "DESC"
      none none none none).items.map (fun d => d.id) = ["t1"] := by
  decide

/-- C3 amended: when AEAD authentication fails on a stored value,
`_decrypt_if_needed` catches the exception and falls back to
`data.decode()` on the raw bytes.  When those bytes are valid UTF-8 (and
the row's other fields decrypt without raising), `Get(id)` returns the
message with the decoded raw bytes in place of the plaintext body — not
nothing; the materialization loop keeps, in order, every row whose display
construction succeeds; and it skips a row exactly when the construction
raises, i.e. when the fallback decode fails on some field. -/
theorem decrypt_failure_swallowed (c : Cipher) (s : DBState) (eid : String) (r : EmailRow)
    (ds : List Char)
    (hfind : s.emails.find? (rowMatchesIdAndRecipient eid none) = some r)
    (hdec : c.dec r.body = none) (hne : r.body ≠ "")
    (hbody : utf8Decode (cellBytes r.body) = some ds)
    (hs : decrypt_if_needed c r.sender ≠ none)
    (hr2 : decrypt_if_needed c r.recipient ≠ none)
    (hsub : decrypt_if_needed c r.subject ≠ none) :
    (∃ d, get_email_by_id c s eid none = some d ∧ d.body = String.mk ds) ∧
    (∀ rows : List EmailRow, (∀ row ∈ rows, displayOfRow c row ≠ none) →
      (materializeRows c rows).map (fun d => d.id) = rows.map (fun row => row.id)) ∧
    (∀ row : EmailRow, displayOfRow c row = none → materializeRows c [row] = []) := by
  obtain ⟨vs, hvs⟩ := Option.ne_none_iff_exists'.mp hs
  obtain ⟨vr, hvr⟩ := Option.ne_none_iff_exists'.mp hr2
  obtain ⟨vj, hvj⟩ := Option.ne_none_iff_exists'.mp hsub
  have hb : decrypt_if_needed c r.body = some (String.mk ds) := by
    unfold decrypt_if_needed
    rw [if_neg hne, hdec, hbody]
    rfl
  have hdisp : displayOfRow c r = some
      ⟨r.id, vs, vr, vj, String.mk ds, r.read, r.arrival_time, r.tags,
       (strBytes (String.mk ds)).length⟩ := by
    unfold displayOfRow
    rw [hvs, hvr, hvj, hb]
    rfl
  refine ⟨⟨⟨r.id, vs, vr, vj, String.mk ds, r.read, r.arrival_time, r.tags,
      (strBytes (String.mk ds)).length⟩, ?_, rfl⟩, ?_, ?_⟩
  · unfold get_email_by_id
    rw [hfind]
    exact hdisp
  · intro rows
    induction rows with
    | nil => intro _; rfl
    | cons row t ih =>
        intro hall
        obtain ⟨d, hd⟩ :=
          Option.ne_none_iff_exists'.mp (hall row (List.mem_cons_self row t))
        show (materializeRows c (row :: t)).map (fun d => d.id) = _
        unfold materializeRows at ih ⊢
        rw [List.filterMap_cons_some hd, List.map_cons, List.map_cons,
          displayOfRow_id c row d hd,
          ih (fun x hx => hall x (List.mem_cons_of_mem _ hx))]
  · intro row hnone
    unfold materializeRows
    rw [List.filterMap_cons_none hnone]
    rfl

theorem decrypt_failure_swallowed_witness :
    (c3state.emails.find? (rowMatchesIdAndRecipient "t1" none) = some c3row ∧
     demoCipher.dec c3row.body = none ∧ c3row.body ≠ "" ∧
     utf8Decode (cellBytes c3row.body) = some "tampered".data ∧
     decrypt_if_needed demoCipher c3row.sender ≠ none ∧
     decrypt_if_needed demoCipher c3row.recipient ≠ none ∧
     decrypt_if_needed demoCipher c3row.subject ≠ none) ∧
    ((∃ d, get_email_by_id demoCipher c3state "t1" none = some d ∧
        d.body = String.mk "tampered".data) ∧
     (∀ rows : List EmailRow, (∀ row ∈ rows, displayOfRow demoCipher row ≠ none) →
       (materializeRows demoCipher rows).map (fun d => d.id) =
         rows.map (fun row => row.id)) ∧
     (∀ row : EmailRow, displayOfRow demoCipher row = none →
       materializeRows demoCipher [row] = [])) :=
  ⟨⟨by decide, by decide, by decide, by decide, by decide, by decide, by decide⟩,
   decrypt_failure_swallowed demoCipher c3state "t1" c3row "tampered".data
     (by decide) (by decide) (by decide) (by decide) (by decide) (by decide) (by decide)⟩

end VaultBox

namespace VaultBox

/-! ## Structural lemmas about sorting, eviction and insertion -/

lemma mem_insertSorted (le : EmailRow → EmailRow → Bool) (r x : EmailRow) (l : List EmailRow) :
    x ∈ insertSorted le r l ↔ x = r ∨ x ∈ l := by
  induction l with
  | nil => simp [insertSorted]
  | cons y ys ih =>
      unfold insertSorted
      by_cases h : le r y
      · simp [h]
      · simp [h, ih]
        tauto

lemma mem_sortRows (le : EmailRow → EmailRow → Bool) (l : List EmailRow) (x : EmailRow) :
    x ∈ sortRows le l ↔ x ∈ l := by
  induction l with
  | nil => simp [sortRows]
  | cons y ys ih =>
      unfold sortRows
      rw [mem_insertSorted, ih]
      simp

lemma enforceFuel_emails_subset (szOf : DBState → Nat) (maxS : Nat) (fuel : Nat) :
    ∀ s : DBState, (enforceFuel szOf maxS fuel s).emails ⊆ s.emails := by
  induction fuel with
  | zero => intro s a ha; exact ha
  | succ n ih =>
      intro s a ha
      unfold enforceFuel at ha
      split at ha
      · exact ha
      · split at ha
        · exact ha
        · have h2 := ih _ ha
          simp only [deleteId] at h2
          exact (List.mem_filter.mp h2).1

lemma enforceFuel_tokens_subset (szOf : DBState → Nat) (maxS : Nat) (fuel : Nat) :
    ∀ s : DBState, (enforceFuel szOf maxS fuel s).search_tokens ⊆ s.search_tokens := by
  induction fuel with
  | zero => intro s a ha; exact ha
  | succ n ih =>
      intro s a ha
      unfold enforceFuel at ha
      split at ha
      · exact ha
      · split at ha
        · exact ha
        · have h2 := ih _ ha
          simp only [deleteId] at h2
          exact (List.mem_filter.mp h2).1

/-- When the size never exceeds the bound, the eviction loop is a no-op. -/
lemma enforce_max_size_eq_self (szOf : DBState → Nat) (maxS : Nat) (s : DBState)
    (h : szOf s ≤ maxS) : enforce_max_size szOf maxS s = s := by
  unfold enforce_max_size enforceFuel
  simp [h]

/-- Successful insert: fresh id, so the row and its tokens are appended and
the eviction loop runs on the result. -/
lemma insert_ok (c : Cipher) (key : List Nat) (szOf : DBState → Nat) (maxS : Nat) (n : Nat)
    (eid sender recip subj body arrival tagsJson : String) (s : DBState)
    (hany : s.emails.any (fun r => r.id == eid) = false) :
    insert_email_with_id c key szOf maxS n eid sender recip subj body arrival tagsJson s =
      .ok (enforce_max_size szOf maxS
        { emails := s.emails ++ [mkEmailRow c n eid sender recip subj body arrival tagsJson],
          search_tokens := s.search_tokens ++ storeSearchTokens key eid sender recip subj body }) := by
  unfold insert_email_with_id
  rw [hany]
  rfl

/-- Every display item of a (simple-search-free) query page is the
materialization of a stored row passing the WHERE predicate. -/
lemma item_of_query_page (c : Cipher) (key : List Nat) (nq : Nat) (s : DBState)
    (ru : Option String) (page pageSize : Nat) (sortBy sortOrder : String)
    (isRead : Option Bool) (dateFrom dateTo : Option String) (d : DisplayEmail)
    (hd : d ∈ (get_emails_for_recipient c key nq s ru page pageSize sortBy sortOrder
      none isRead dateFrom dateTo).items) :
    ∃ r ∈ s.emails,
      wherePred c nq none ru isRead dateFrom dateTo r = true ∧ displayOfRow c r = some d := by
  dsimp only [get_emails_for_recipient] at hd
  unfold materializeRows at hd
  rw [List.mem_filterMap] at hd
  obtain ⟨r, hr, hdr⟩ := hd
  have hr1 : r ∈ sortRows (rowOrder sortBy sortOrder)
      (s.emails.filter (wherePred c nq none ru isRead dateFrom dateTo)) :=
    List.drop_subset _ _ (List.take_subset _ _ hr)
  rw [mem_sortRows, List.mem_filter] at hr1
  exact ⟨r, hr1.1, hr1.2, hdr⟩

end VaultBox

namespace VaultBox

/-! ## C8 -/

/-- C8: the `recipient_username` filter of `Query` compares the stored
recipient ciphertext with a freshly encrypted comparator.  Whenever the two
encryptions of the same recipient differ (which is what fresh random nonces
guarantee), the equality never matches, and a message whose recipient equals
the filter value is excluded from the results. -/
theorem recipient_filter_excludes_matching_message
    (c : Cipher) (key : List Nat) (szOf : DBState → Nat) (maxS : Nat) (n nq : Nat)
    (s s1 : DBState) (eid sender recip subj body arrival tagsJson : String)
    (page pageSize : Nat) (sortBy sortOrder : String)
    (isRead : Option Bool) (dateFrom dateTo : Option String)
    (hins : insert_email_with_id c key szOf maxS n eid sender recip subj body arrival tagsJson s
      = .ok s1)
    (hfresh : ∀ r ∈ s.emails, r.id ≠ eid)
    (hrne : recip ≠ "")
    (hcts : c.enc nq recip ≠ c.enc (n + 1) recip) :
    eid ∉ (get_emails_for_recipient c key nq s1 (some recip) page pageSize sortBy sortOrder
      none isRead dateFrom dateTo).items.map (fun d => d.id) := by
  have hany : s.emails.any (fun r => r.id == eid) = false := by
    rw [List.any_eq_false]
    intro r hr
    simp [hfresh r hr]
  rw [insert_ok c key szOf maxS n eid sender recip subj body arrival tagsJson s hany] at hins
  have hs1 : s1 = enforce_max_size szOf maxS
      { emails := s.emails ++ [mkEmailRow c n eid sender recip subj body arrival tagsJson],
        search_tokens := s.search_tokens ++ storeSearchTokens key eid sender recip subj body } :=
    (Except.ok.inj hins).symm
  intro hmem
  rw [List.mem_map] at hmem
  obtain ⟨d, hd, hid⟩ := hmem
  obtain ⟨r, hr, hpred, hdr⟩ := item_of_query_page c key nq s1 (some recip) page pageSize
    sortBy sortOrder isRead dateFrom dateTo d hd
  have hrid : r.id = eid := by
    rw [← displayOfRow_id c r d hdr]
    exact hid
  have hr' : r ∈ s.emails ++ [mkEmailRow c n eid sender recip subj body arrival tagsJson] := by
    have := enforceFuel_emails_subset szOf maxS _ _ (hs1 ▸ hr)
    exact this
  rcases List.mem_append.mp hr' with hl | hrr
  · exact hfresh r hl hrid
  · have hreq : r = mkEmailRow c n eid sender recip subj body arrival tagsJson :=
      List.mem_singleton.mp hrr
    have hclause : sqlEqB
        (.blob (mkEmailRow c n eid sender recip subj body arrival tagsJson).recipient)
        (.blob (encrypt_if_needed c nq recip)) = false := by
      show sqlEqB (.blob (encrypt_if_needed c (n + 1) recip))
        (.blob (encrypt_if_needed c nq recip)) = false
      unfold encrypt_if_needed
      rw [if_neg hrne, if_neg hrne]
      show (c.enc (n + 1) recip == c.enc nq recip) = false
      exact beq_eq_false_iff_ne.mpr (fun h => hcts h.symm)
    have hfalse : wherePred c nq none (some recip) isRead dateFrom dateTo
        (mkEmailRow c n eid sender recip subj body arrival tagsJson) = false := by
      unfold wherePred
      simp only [if_neg hrne, hclause]
      simp
    rw [hreq] at hpred
    rw [hpred] at hfalse
    simp at hfalse

end VaultBox

namespace VaultBox
lemma storeSearchTokens_email_id (key : List Nat) (i sender recip subj body : String) :
    ∀ t ∈ storeSearchTokens key i sender recip subj body, t.email_id = i := by
  intro t ht
  unfold storeSearchTokens at ht
  rw [List.mem_flatMap] at ht
  obtain ⟨p, _, ht2⟩ := ht
  rw [List.mem_map] at ht2
  obtain ⟨tok, _, rfl⟩ := ht2
  rfl

theorem worker_reingest_idempotent
    (c : Cipher) (key : List Nat) (szOf : DBState → Nat) (maxS : Nat) (n n2 : Nat)
    (s : DBState) (env : Envelope)
    (hid : ∀ r ∈ s.emails, r.id ≠ env.id)
    (htok : ∀ t ∈ s.search_tokens, t.email_id ≠ env.id)
    (hsz : ∀ st, szOf st ≤ maxS) :
    ((process_single_email c key szOf maxS n s env).emails.filter
      (fun r => r.id == env.id)).length = 1 ∧
    (process_single_email c key szOf maxS n s env).search_tokens.filter
      (fun t => t.email_id == env.id) =
      storeSearchTokens key env.id env.sender env.recipient env.subject env.body ∧
    insert_email_with_id c key szOf maxS n2 env.id env.sender env.recipient env.subject env.body
      env.arrival_time "[]" (process_single_email c key szOf maxS n s env)
      = .error .duplicateId ∧
    process_single_email c key szOf maxS n2 (process_single_email c key szOf maxS n s env) env =
      process_single_email c key szOf maxS n s env := by
  have hany : s.emails.any (fun r => r.id == env.id) = false := by
    rw [List.any_eq_false]
    intro r hr
    simp [hid r hr]
  have hins := insert_ok c key szOf maxS n env.id env.sender env.recipient env.subject env.body
    env.arrival_time "[]" s hany
  set row : EmailRow := mkEmailRow c n env.id env.sender env.recipient env.subject env.body
    env.arrival_time "[]" with hrow
  set raw : DBState :=
    { emails := s.emails ++ [row],
      search_tokens := s.search_tokens ++
        storeSearchTokens key env.id env.sender env.recipient env.subject env.body } with hraw
  have henf : enforce_max_size szOf maxS raw = raw := enforce_max_size_eq_self _ _ _ (hsz raw)
  have hproc : process_single_email c key szOf maxS n s env = raw := by
    unfold process_single_email
    rw [hins, henf]
  have hrowid : row.id = env.id := rfl
  have hany2 : raw.emails.any (fun r => r.id == env.id) = true := by
    rw [List.any_eq_true]
    exact ⟨row, by simp [hraw], by simp [hrowid]⟩
  have hdup : insert_email_with_id c key szOf maxS n2 env.id env.sender env.recipient env.subject
      env.body env.arrival_time "[]" raw = .error .duplicateId := by
    unfold insert_email_with_id
    rw [hany2]
    rfl
  refine ⟨?_, ?_, ?_, ?_⟩
  · rw [hproc, hraw]
    show ((s.emails ++ [row]).filter (fun r => r.id == env.id)).length = 1
    rw [List.filter_append]
    have h1 : s.emails.filter (fun r => r.id == env.id) = [] := by
      rw [List.filter_eq_nil_iff]
      intro r hr
      simp [hid r hr]
    rw [h1]
    simp [hrowid]
  · rw [hproc, hraw]
    show (s.search_tokens ++
        storeSearchTokens key env.id env.sender env.recipient env.subject env.body).filter
        (fun t => t.email_id == env.id) =
      storeSearchTokens key env.id env.sender env.recipient env.subject env.body
    rw [List.filter_append]
    have h1 : s.search_tokens.filter (fun t => t.email_id == env.id) = [] := by
      rw [List.filter_eq_nil_iff]
      intro t ht
      simp [htok t ht]
    have h2 : (storeSearchTokens key env.id env.sender env.recipient env.subject
        env.body).filter (fun t => t.email_id == env.id) =
        storeSearchTokens key env.id env.sender env.recipient env.subject env.body := by
      rw [List.filter_eq_self]
      intro t ht
      simp [storeSearchTokens_email_id key env.id env.sender env.recipient env.subject env.body t ht]
    rw [h1, h2]
    exact List.nil_append _
  · rw [hproc]
    exact hdup
  · rw [hproc]
    unfold process_single_email
    rw [hdup]
end VaultBox
namespace VaultBox

/-- The store after the C8 witness insert. -/
def c8s1 : DBState :=
  { emails := [⟨"w1", "", "E(1,a@b.c)", "", "", false, "2024-01-03", "[]"⟩],
    search_tokens := [] }

set_option maxHeartbeats 2000000 in
theorem recipient_filter_excludes_matching_message_witness :
    (insert_email_with_id demoCipher [] (fun _ => 0) 0 0 "w1" "" "a@b.c" "" "" "2024-01-03" "[]"
      ⟨[], []⟩ = .ok c8s1) ∧
    ("a@b.c" : String) ≠ "" ∧
    demoCipher.enc 10 "a@b.c" ≠ demoCipher.enc (0 + 1) "a@b.c" ∧
    "w1" ∉ (get_emails_for_recipient demoCipher [] 10 c8s1 (some "a@b.c") 1 20 "arrival_time"
      "DESC" none none none none).items.map (fun d => d.id) :=
  ⟨by rfl, by decide, by decide,
   recipient_filter_excludes_matching_message demoCipher [] (fun _ => 0) 0 0 10 ⟨[], []⟩ c8s1
     "w1" "" "a@b.c" "" "" "2024-01-03" "[]" 1 20 "arrival_time" "DESC" none none none
     (by rfl) (by simp) (by decide) (by decide)⟩

def c5env : Envelope := ⟨"a", "", "", "", "", "2024"⟩

set_option maxHeartbeats 2000000 in
theorem worker_reingest_idempotent_witness :
    ((∀ r ∈ (⟨[], []⟩ : DBState).emails, r.id ≠ c5env.id) ∧
     (∀ t ∈ (⟨[], []⟩ : DBState).search_tokens, t.email_id ≠ c5env.id)) ∧
    (((process_single_email demoCipher [] (fun _ => 0) 0 0 ⟨[], []⟩ c5env).emails.filter
        (fun r => r.id == c5env.id)).length = 1 ∧
     (process_single_email demoCipher [] (fun _ => 0) 0 0 ⟨[], []⟩ c5env).search_tokens.filter
        (fun t => t.email_id == c5env.id) =
        storeSearchTokens [] c5env.id c5env.sender c5env.recipient c5env.subject c5env.body ∧
     insert_email_with_id demoCipher [] (fun _ => 0) 0 7 c5env.id c5env.sender c5env.recipient
        c5env.subject c5env.body c5env.arrival_time "[]"
        (process_single_email demoCipher [] (fun _ => 0) 0 0 ⟨[], []⟩ c5env)
        = .error .duplicateId ∧
     process_single_email demoCipher [] (fun _ => 0) 0 7
        (process_single_email demoCipher [] (fun _ => 0) 0 0 ⟨[], []⟩ c5env) c5env =
        process_single_email demoCipher [] (fun _ => 0) 0 0 ⟨[], []⟩ c5env) :=
  ⟨⟨by simp, by simp⟩,
   worker_reingest_idempotent demoCipher [] (fun _ => 0) 0 0 7 ⟨[], []⟩ c5env
     (by simp) (by simp) (fun _ => Nat.le_refl 0)⟩

end VaultBox

namespace VaultBox

/-! ## C4: eviction lemmas -/

lemma selectOldest_eq_none {l : List EmailRow} (h : selectOldest l = none) : l = [] := by
  cases l with
  | nil => rfl
  | cons y ys =>
      exfalso
      unfold selectOldest at h
      cases hys : selectOldest ys with
      | none =>
          rw [hys] at h
          dsimp only at h
          exact Option.noConfusion h
      | some m =>
          rw [hys] at h
          dsimp only at h
          by_cases hc : m.arrival_time < y.arrival_time
          · rw [if_pos hc] at h
            exact Option.noConfusion h
          · rw [if_neg hc] at h
            exact Option.noConfusion h

lemma selectOldest_spec : ∀ (l : List EmailRow) (r : EmailRow), selectOldest l = some r →
    r ∈ l ∧ ∀ x ∈ l, r.arrival_time ≤ x.arrival_time := by
  intro l
  induction l with
  | nil => intro r h; simp [selectOldest] at h
  | cons y ys ih =>
      intro r h
      unfold selectOldest at h
      cases hys : selectOldest ys with
      | none =>
          rw [hys] at h
          dsimp only at h
          have hyr : y = r := by simpa using h
          have hempty : ys = [] := selectOldest_eq_none hys
          subst hyr hempty
          exact ⟨List.mem_singleton_self y, by intro x hx; rw [List.mem_singleton.mp hx]⟩
      | some m =>
          rw [hys] at h
          dsimp only at h
          obtain ⟨hm, hmin⟩ := ih m hys
          by_cases hc : m.arrival_time < y.arrival_time
          · rw [if_pos hc] at h
            have : m = r := by simpa using h
            subst this
            refine ⟨List.mem_cons_of_mem y hm, ?_⟩
            intro x hx
            rcases List.mem_cons.mp hx with hxy | hxys
            · exact hxy ▸ le_of_lt hc
            · exact hmin x hxys
          · rw [if_neg hc] at h
            have : y = r := by simpa using h
            subst this
            refine ⟨List.mem_cons_self y ys, ?_⟩
            intro x hx
            rcases List.mem_cons.mp hx with hxy | hxys
            · exact hxy ▸ le_refl _
            · exact le_trans (le_of_not_lt hc) (hmin x hxys)

lemma deleteId_emails_length_lt (s : DBState) (r : EmailRow) (hr : r ∈ s.emails) :
    (deleteId r.id s).emails.length < s.emails.length := by
  simp only [deleteId]
  rw [List.length_filter_lt_length_iff_exists]
  exact ⟨r, hr, by simp⟩

/-- The eviction loop always exits with the size within the bound or an
empty table (given enough fuel, which `enforce_max_size` supplies). -/
lemma enforceFuel_exit (szOf : DBState → Nat) (maxS : Nat) :
    ∀ (fuel : Nat) (s : DBState), s.emails.length < fuel →
      szOf (enforceFuel szOf maxS fuel s) ≤ maxS ∨ (enforceFuel szOf maxS fuel s).emails = [] := by
  intro fuel
  induction fuel with
  | zero => intro s h; exact absurd h (Nat.not_lt_zero _)
  | succ n ih =>
      intro s hlen
      unfold enforceFuel
      by_cases hsz : szOf s ≤ maxS
      · rw [if_pos hsz]
        exact Or.inl hsz
      · rw [if_neg hsz]
        cases hsel : selectOldest s.emails with
        | none => exact Or.inr (selectOldest_eq_none hsel)
        | some r =>
            apply ih
            have hr := (selectOldest_spec s.emails r hsel).1
            have := deleteId_emails_length_lt s r hr
            omega

/-- Eviction monotonicity: while ids are unique, any message deleted by the
loop has `arrival_time` no greater than that of any survivor. -/
lemma enforceFuel_mono (szOf : DBState → Nat) (maxS : Nat) :
    ∀ (fuel : Nat) (s : DBState), (s.emails.map (fun r => r.id)).Nodup →
      ∀ d ∈ s.emails, d ∉ (enforceFuel szOf maxS fuel s).emails →
        ∀ e ∈ (enforceFuel szOf maxS fuel s).emails, d.arrival_time ≤ e.arrival_time := by
  intro fuel
  induction fuel with
  | zero =>
      intro s _ d hd hnd e _
      exact absurd hd (by simpa [enforceFuel] using hnd)
  | succ n ih =>
      intro s hnodup d hd hnd e he
      unfold enforceFuel at hnd he
      by_cases hsz : szOf s ≤ maxS
      · rw [if_pos hsz] at hnd he
        exact absurd hd hnd
      · rw [if_neg hsz] at hnd he
        cases hsel : selectOldest s.emails with
        | none =>
            rw [hsel] at hnd he
            exact absurd hd hnd
        | some r =>
            rw [hsel] at hnd he
            obtain ⟨hrmem, hrmin⟩ := selectOldest_spec s.emails r hsel
            have hnodup' : ((deleteId r.id s).emails.map (fun x => x.id)).Nodup :=
              hnodup.sublist ((List.filter_sublist s.emails).map (fun x => x.id))
            by_cases hdel : d ∈ (deleteId r.id s).emails
            · exact ih (deleteId r.id s) hnodup' d hdel hnd e he
            · have hdid : d.id = r.id := by
                by_contra hne
                exact hdel (by simp [deleteId, List.mem_filter, hd, hne])
              have hdr : d = r :=
                List.inj_on_of_nodup_map hnodup hd hrmem hdid
              have hes : e ∈ s.emails := by
                have h1 := enforceFuel_emails_subset szOf maxS n (deleteId r.id s) he
                simp only [deleteId] at h1
                exact (List.mem_filter.mp h1).1
              exact hdr ▸ hrmin e hes

/-- Tokens of surviving messages are retained by the eviction loop. -/
lemma enforceFuel_tokens_retained (szOf : DBState → Nat) (maxS : Nat) :
    ∀ (fuel : Nat) (s : DBState), ∀ tr ∈ s.search_tokens,
      (∃ e ∈ (enforceFuel szOf maxS fuel s).emails, e.id = tr.email_id) →
      tr ∈ (enforceFuel szOf maxS fuel s).search_tokens := by
  intro fuel
  induction fuel with
  | zero =>
      intro s tr htr _
      simpa [enforceFuel] using htr
  | succ n ih =>
      intro s tr htr hex
      unfold enforceFuel at hex ⊢
      by_cases hsz : szOf s ≤ maxS
      · rw [if_pos hsz] at hex ⊢
        exact htr
      · rw [if_neg hsz] at hex ⊢
        cases hsel : selectOldest s.emails with
        | none =>
            dsimp only at hex ⊢
            exact htr
        | some r =>
            rw [hsel] at hex
            dsimp only at hex ⊢
            obtain ⟨e, he, heid⟩ := hex
            have heDel : e ∈ (deleteId r.id s).emails :=
              enforceFuel_emails_subset szOf maxS n (deleteId r.id s) he
            have heNe : e.id ≠ r.id := by
              simp only [deleteId, List.mem_filter] at heDel
              simpa using heDel.2
            have htrNe : tr.email_id ≠ r.id := heid ▸ heNe
            have htr' : tr ∈ (deleteId r.id s).search_tokens := by
              simp [deleteId, List.mem_filter, htr, htrNe]
            exact ih (deleteId r.id s) tr htr' ⟨e, he, heid⟩

end VaultBox

namespace VaultBox

/-- C4 counterexample: with the on-disk size stuck above the bound, the
eviction loop run by an insert into an empty store deletes the message that
was just inserted (the loop only stops when the size is within the bound or
the table is empty — not when only the just-inserted message remains). -/
theorem insert_can_evict_itself :
    insert_email_with_id demoCipher [] (fun _ => 2) 1 0 "m9" "" "" "" "" "2024-01-01" "[]"
      ⟨[], []⟩ = .ok ⟨[], []⟩ := by
  have h2 : (⟨[], []⟩ : DBState).emails.any (fun r => r.id == "m9") = false := by decide
  have h1 : enforce_max_size (fun _ => 2) 1
      ⟨([] : List EmailRow) ++ [mkEmailRow demoCipher 0 "m9" "" "" "" "" "2024-01-01" "[]"],
       ([] : List TokenRow) ++ storeSearchTokens [] "m9" "" "" "" ""⟩ = ⟨[], []⟩ := by decide
  exact (insert_ok demoCipher [] (fun _ => 2) 1 0 "m9" "" "" "" "" "2024-01-01" "[]" ⟨[], []⟩
    h2).trans (congrArg Except.ok h1)

/-- C4 amended: after a successful insert the eviction loop stops with the
size within the bound or the table empty (possibly evicting the
just-inserted message itself); whenever ids are unique, every evicted
message has `arrival_time` no greater than every survivor (oldest first);
surviving rows' token rows are retained, evicted rows' tokens are deleted
with them, and no token row is invented. -/
theorem insert_eviction_properties
    (c : Cipher) (key : List Nat) (szOf : DBState → Nat) (maxS : Nat) (n : Nat)
    (eid sender recip subj body arrival tagsJson : String) (s s1 : DBState)
    (hins : insert_email_with_id c key szOf maxS n eid sender recip subj body arrival tagsJson s
      = .ok s1)
    (hnodup : (s.emails.map (fun r => r.id)).Nodup) :
    (szOf s1 ≤ maxS ∨ s1.emails = []) ∧
    (∀ d ∈ s.emails ++ [mkEmailRow c n eid sender recip subj body arrival tagsJson],
      d ∉ s1.emails → ∀ e ∈ s1.emails, d.arrival_time ≤ e.arrival_time) ∧
    (∀ tr ∈ s1.search_tokens,
      tr ∈ s.search_tokens ++ storeSearchTokens key eid sender recip subj body) ∧
    (∀ tr ∈ s.search_tokens ++ storeSearchTokens key eid sender recip subj body,
      (∃ e ∈ s1.emails, e.id = tr.email_id) → tr ∈ s1.search_tokens) := by
  have hanyf : s.emails.any (fun r => r.id == eid) = false := by
    by_contra hc
    rw [Bool.not_eq_false] at hc
    unfold insert_email_with_id at hins
    rw [hc] at hins
    simp at hins
  rw [insert_ok c key szOf maxS n eid sender recip subj body arrival tagsJson s hanyf] at hins
  have hfresh : ∀ r ∈ s.emails, r.id ≠ eid := by
    intro r hr
    have := List.any_eq_false.mp hanyf r hr
    simpa using this
  set row : EmailRow := mkEmailRow c n eid sender recip subj body arrival tagsJson with hrow
  set raw : DBState :=
    { emails := s.emails ++ [row],
      search_tokens := s.search_tokens ++ storeSearchTokens key eid sender recip subj body }
    with hraw
  have hs1 : s1 = enforce_max_size szOf maxS raw := (Except.ok.inj hins).symm
  have hrawnodup : (raw.emails.map (fun r => r.id)).Nodup := by
    rw [hraw]
    simp only [List.map_append, List.map_cons, List.map_nil]
    rw [List.nodup_append]
    refine ⟨hnodup, List.nodup_singleton _, ?_⟩
    intro a ha hb
    rw [List.mem_map] at ha
    obtain ⟨r, hr, hrid⟩ := ha
    have : a = row.id := by simpa using hb
    refine hfresh r hr ?_
    rw [hrid, this]
    rfl
  have hfuel : raw.emails.length < raw.emails.length + 1 := Nat.lt_succ_self _
  refine ⟨?_, ?_, ?_, ?_⟩
  · rw [hs1]
    exact enforceFuel_exit szOf maxS (raw.emails.length + 1) raw hfuel
  · intro d hd hnd e he
    rw [hs1] at hnd he
    exact enforceFuel_mono szOf maxS (raw.emails.length + 1) raw hrawnodup d hd hnd e he
  · intro tr htr
    rw [hs1] at htr
    exact enforceFuel_tokens_subset szOf maxS (raw.emails.length + 1) raw htr
  · intro tr htr hex
    rw [hs1] at hex ⊢
    exact enforceFuel_tokens_retained szOf maxS (raw.emails.length + 1) raw tr htr hex

theorem insert_eviction_properties_witness :
    (insert_email_with_id demoCipher [] (fun _ => 2) 1 0 "m9" "" "" "" "" "2024-01-01" "[]"
      ⟨[], []⟩ = .ok ⟨[], []⟩) ∧
    (((⟨[], []⟩ : DBState).emails.map (fun r => r.id)).Nodup) ∧
    (((fun _ => 2 : DBState → Nat) (⟨[], []⟩ : DBState) ≤ 1 ∨
        (⟨[], []⟩ : DBState).emails = []) ∧
     (∀ d ∈ (⟨[], []⟩ : DBState).emails ++
        [mkEmailRow demoCipher 0 "m9" "" "" "" "" "2024-01-01" "[]"],
        d ∉ (⟨[], []⟩ : DBState).emails →
        ∀ e ∈ (⟨[], []⟩ : DBState).emails, d.arrival_time ≤ e.arrival_time) ∧
     (∀ tr ∈ (⟨[], []⟩ : DBState).search_tokens,
        tr ∈ (⟨[], []⟩ : DBState).search_tokens ++ storeSearchTokens [] "m9" "" "" "" "") ∧
     (∀ tr ∈ (⟨[], []⟩ : DBState).search_tokens ++ storeSearchTokens [] "m9" "" "" "" "",
        (∃ e ∈ (⟨[], []⟩ : DBState).emails, e.id = tr.email_id) →
        tr ∈ (⟨[], []⟩ : DBState).search_tokens)) :=
  ⟨insert_can_evict_itself, by simp,
   insert_eviction_properties demoCipher [] (fun _ => 2) 1 0 "m9" "" "" "" "" "2024-01-01" "[]"
     ⟨[], []⟩ ⟨[], []⟩ insert_can_evict_itself (by simp)⟩

end VaultBox

namespace VaultBox

/-! ## C1: recall of the simple token search -/

lemma mem_distinctAux (x : String) : ∀ (l seen : List String), x ∈ l → x ∉ seen →
    x ∈ distinctAux l seen := by
  intro l
  induction l with
  | nil => intro seen h _; exact absurd h (List.not_mem_nil x)
  | cons y ys ih =>
      intro seen hx hs
      unfold distinctAux
      by_cases hy : y ∈ seen
      · rw [if_pos hy]
        rcases List.mem_cons.mp hx with rfl | hxys
        · exact absurd hy hs
        · exact ih seen hxys hs
      · rw [if_neg hy]
        rcases List.mem_cons.mp hx with rfl | hxys
        · exact List.mem_cons_self _ _
        · by_cases hxy : x = y
          · exact hxy ▸ List.mem_cons_self _ _
          · refine List.mem_cons_of_mem _ (ih (y :: seen) hxys ?_)
            intro hc
            rcases List.mem_cons.mp hc with h1 | h1
            · exact hxy h1
            · exact hs h1

/-- A token row whose hash occurs in the query hashes contributes its
message id to the `SELECT DISTINCT` result. -/
lemma mem_selectDistinct_of (s : DBState) (hashes : List String) (tr : TokenRow)
    (h1 : tr ∈ s.search_tokens) (h2 : tr.token_hash ∈ hashes) :
    tr.email_id ∈ selectDistinct s hashes := by
  unfold selectDistinct
  apply mem_distinctAux _ _ []
  · rw [List.mem_map]
    exact ⟨tr, List.mem_filter.mpr ⟨h1, by simpa using h2⟩, rfl⟩
  · exact List.not_mem_nil _

/-- All four token rows of a message are present in the store (the state in
which `_store_search_tokens` has run for the message). -/
def tokenRowsPresent (key : List Nat) (s : DBState) (mid sender recip subject body : String) :
    Prop :=
  (∀ t ∈ extract_tokens sender,
    (⟨mid, hash_token key t "sender", "sender"⟩ : TokenRow) ∈ s.search_tokens) ∧
  (∀ t ∈ extract_tokens recip,
    (⟨mid, hash_token key t "recipient", "recipient"⟩ : TokenRow) ∈ s.search_tokens) ∧
  (∀ t ∈ extract_tokens subject,
    (⟨mid, hash_token key t "subject", "subject"⟩ : TokenRow) ∈ s.search_tokens) ∧
  (∀ t ∈ extract_tokens body,
    (⟨mid, hash_token key t "body", "body"⟩ : TokenRow) ∈ s.search_tokens)

instance tokenRowsPresent.dec (key : List Nat) (s : DBState)
    (mid sender recip subject body : String) :
    Decidable (tokenRowsPresent key s mid sender recip subject body) := by
  unfold tokenRowsPresent
  infer_instance

lemma fallback_hit (key : List Nat) (s : DBState) (q mid src t : String)
    (hrow : (⟨mid, hash_token key t src, src⟩ : TokenRow) ∈ s.search_tokens)
    (ht : t ∈ extract_tokens q)
    (hsrc : src ∈ ["subject", "body", "sender", "recipient"]) :
    mid ∈ selectDistinct s (fallbackHashes key q) := by
  apply mem_selectDistinct_of s _ ⟨mid, hash_token key t src, src⟩ hrow
  unfold fallbackHashes
  rw [List.mem_flatMap]
  exact ⟨t, ht, List.mem_map.mpr ⟨src, hsrc, rfl⟩⟩

/-- Core recall property of `_simple_token_search`: if the query's tokens
all occur among the message's field tokens, the message's token rows are in
the store, the query tokenizes non-trivially, and the exact-email fast path
does not preempt, then the message id is in the candidate set. -/
lemma recall_core (key : List Nat) (s : DBState) (mid sender recip subject body q : String)
    (hrows : tokenRowsPresent key s mid sender recip subject body)
    (hne : extract_tokens q ≠ [])
    (hsub : ∀ t ∈ extract_tokens q,
      t ∈ extract_tokens subject ++ extract_tokens body ++
        extract_tokens sender ++ extract_tokens recip)
    (hfast : isFullEmail (pyStrip q) = false ∨ exact_matches key s q = [] ∨
      mid ∈ exact_matches key s q) :
    mid ∈ simple_token_search key s q := by
  obtain ⟨hrS, hrR, hrJ, hrB⟩ := hrows
  unfold simple_token_search
  rw [if_neg (by simpa [List.isEmpty_iff] using hne)]
  by_cases hbranch : (isFullEmail (pyStrip q) && !(exact_matches key s q).isEmpty) = true
  · rw [if_pos hbranch]
    rcases hfast with hf | hf | hf
    · rw [hf] at hbranch
      simp at hbranch
    · rw [hf] at hbranch
      simp at hbranch
    · exact hf
  · rw [if_neg hbranch]
    obtain ⟨t, ht⟩ := List.exists_mem_of_ne_nil (extract_tokens q) hne
    have hsrc := hsub t ht
    simp only [List.mem_append] at hsrc
    rcases hsrc with ((hJ | hB) | hS) | hR
    · exact fallback_hit key s q mid "subject" t (hrJ t hJ) ht (by simp)
    · exact fallback_hit key s q mid "body" t (hrB t hB) ht (by simp)
    · exact fallback_hit key s q mid "sender" t (hrS t hS) ht (by simp)
    · exact fallback_hit key s q mid "recipient" t (hrR t hR) ht (by simp)

/-- C1 amended: the recall lower bound holds provided the query tokenizes
non-trivially and the exact-email fast path does not preempt the fallback
(it does not when the query is not a full email address, or when the exact
sender/recipient lookup returns no ids, or when the message is among them). -/
theorem simple_search_recall (key : List Nat) (s : DBState)
    (mid sender recip subject body q : String)
    (hrows : tokenRowsPresent key s mid sender recip subject body)
    (hne : extract_tokens q ≠ [])
    (hsub : ∀ t ∈ extract_tokens q,
      t ∈ extract_tokens subject ++ extract_tokens body ++
        extract_tokens sender ++ extract_tokens recip)
    (hfast : isFullEmail (pyStrip q) = false ∨ exact_matches key s q = [] ∨
      mid ∈ exact_matches key s q) :
    mid ∈ simple_token_search key s q :=
  recall_core key s mid sender recip subject body q hrows hne hsub hfast

/-- Witness store for C1: one message whose body tokenizes to exactly
`["meet"]`, with its single token row. -/
def c1wKey : List Nat := strBytes "wk"

def c1wStore : DBState :=
  { emails := [⟨"m1", "", "", "", "E(3,meet)", false, "2024-01-01", "[]"⟩],
    search_tokens := [⟨"m1", hash_token c1wKey "meet" "body", "body"⟩] }

theorem simple_search_recall_witness :
    (tokenRowsPresent c1wKey c1wStore "m1" "" "" "" "meet" ∧
     extract_tokens "meet" ≠ [] ∧
     (∀ t ∈ extract_tokens "meet",
       t ∈ extract_tokens "" ++ extract_tokens "meet" ++
         extract_tokens "" ++ extract_tokens "") ∧
     isFullEmail (pyStrip "meet") = false) ∧
    "m1" ∈ simple_token_search c1wKey c1wStore "meet" :=
  have h1 : tokenRowsPresent c1wKey c1wStore "m1" "" "" "" "meet" := by decide
  have h2 : extract_tokens "meet" ≠ [] := by decide
  have h3 : ∀ t ∈ extract_tokens "meet",
      t ∈ extract_tokens "" ++ extract_tokens "meet" ++
        extract_tokens "" ++ extract_tokens "" := by decide
  have h4 : isFullEmail (pyStrip "meet") = false := by decide
  ⟨⟨h1, h2, h3, h4⟩,
   simple_search_recall c1wKey c1wStore "m1" "" "" "" "meet" "meet" h1 h2 h3 (Or.inl h4)⟩

end VaultBox

namespace VaultBox

/-- Concrete token key for the C1 counterexample (`EmailDB` token keys are
32-byte PBKDF2 outputs; which byte string is used does not matter to the
structure of the counterexample). -/
def c1xKey : List Nat := strBytes "k"

/-- Store with message `m1` whose body is exactly the email address
`ab@cd.ef` (tokens under source `body`), then message `m2` whose sender is
that address (tokens under source `sender`). -/
def c1xs1 : DBState :=
  (insert_email_with_id demoCipher c1xKey (fun _ => 0) 0 0 "m1" "" "" "" "ab@cd.ef"
    "2024-01-01" "[]" ⟨[], []⟩).toOption.getD ⟨[], []⟩

def c1xStore : DBState :=
  (insert_email_with_id demoCipher c1xKey (fun _ => 0) 0 4 "m2" "ab@cd.ef" "" "" ""
    "2024-01-02" "[]" c1xs1).toOption.getD ⟨[], []⟩

set_option maxHeartbeats 20000000 in
/-- C1 counterexample: `m1` has been inserted and every token of the query
`"ab@cd.ef"` occurs among `m1`'s field tokens, yet the simple search for
that query does not contain `m1` — the query is a full email address, the
exact sender/recipient fast path finds `m2` (whose sender is that address)
and returns only the exact matches, preempting the fallback expansion that
would have found `m1`'s body tokens. -/
theorem exact_email_fast_path_defeats_recall :
    (∀ t ∈ extract_tokens "ab@cd.ef",
      t ∈ extract_tokens "" ++ extract_tokens "ab@cd.ef" ++
        extract_tokens "" ++ extract_tokens "") ∧
    tokenRowsPresent c1xKey c1xStore "m1" "" "" "" "ab@cd.ef" ∧
    extract_tokens "ab@cd.ef" ≠ [] ∧
    "m1" ∉ simple_token_search c1xKey c1xStore "ab@cd.ef" := by
  refine ⟨by decide, by decide, by decide, by decide⟩

end VaultBox

namespace VaultBox
def c2store (key : List Nat) : DBState :=
  (insert_email_with_id demoCipher key (fun _ => 0) 0 0 "m1" "alice@example.com"
    "carol@dest.net" "Hi" "Meet at 5" "2024-01-01T00:00:00" "[]"
    ⟨[], []⟩).toOption.getD ⟨[], []⟩

lemma c2store_eq (key : List Nat) : c2store key =
    { emails := [mkEmailRow demoCipher 0 "m1" "alice@example.com" "carol@dest.net" "Hi"
        "Meet at 5" "2024-01-01T00:00:00" "[]"],
      search_tokens := storeSearchTokens key "m1" "alice@example.com" "carol@dest.net" "Hi"
        "Meet at 5" } := by
  unfold c2store
  rw [insert_ok demoCipher key (fun _ => 0) 0 0 "m1" "alice@example.com" "carol@dest.net" "Hi"
    "Meet at 5" "2024-01-01T00:00:00" "[]" ⟨[], []⟩ (by simp)]
  rw [enforce_max_size_eq_self (fun _ => 0) 0 _ (Nat.le_refl 0)]
  exact congrArg₂ DBState.mk (List.nil_append _) (List.nil_append _)

lemma mem_storeSearchTokens (key : List Nat) (i sender recip subj body src fieldVal t : String)
    (hp : (extract_tokens fieldVal, src) ∈
      [(extract_tokens sender, "sender"), (extract_tokens recip, "recipient"),
       (extract_tokens subj, "subject"), (extract_tokens body, "body")])
    (h : t ∈ extract_tokens fieldVal) :
    (⟨i, hash_token key t src, src⟩ : TokenRow) ∈ storeSearchTokens key i sender recip subj body := by
  unfold storeSearchTokens
  rw [List.mem_flatMap]
  exact ⟨(extract_tokens fieldVal, src), hp, List.mem_map.mpr ⟨t, h, rfl⟩⟩

lemma c2_exact_hit (key : List Nat) :
    "m1" ∈ exact_matches key (c2store key) "alice@example.com" := by
  unfold exact_matches
  apply mem_selectDistinct_of _ _
    ⟨"m1", hash_token key "alice@example.com" "sender", "sender"⟩
  · rw [c2store_eq]
    exact mem_storeSearchTokens key "m1" "alice@example.com" "carol@dest.net" "Hi" "Meet at 5"
      "sender" "alice@example.com" "alice@example.com" (by simp) (by decide)
  · show hash_token key "alice@example.com" "sender" ∈
      exactEmailHashes key "alice@example.com"
    unfold exactEmailHashes
    rw [List.mem_map]
    refine ⟨"sender", by simp, ?_⟩
    have hq : pyStrip (pyLower "alice@example.com") = "alice@example.com" := by decide
    rw [hq]

lemma c2_first (key : List Nat) :
    "m1" ∈ simple_token_search key (c2store key) "alice@example.com" := by
  have hne : exact_matches key (c2store key) "alice@example.com" ≠ [] :=
    List.ne_nil_of_mem (c2_exact_hit key)
  unfold simple_token_search
  rw [if_neg (by decide)]
  rw [if_pos ?hb]
  case hb =>
    rw [Bool.and_eq_true, Bool.not_eq_true']
    refine ⟨by decide, ?_⟩
    cases hcase : exact_matches key (c2store key) "alice@example.com" with
    | nil => exact absurd hcase hne
    | cons a l => rfl
  exact c2_exact_hit key

lemma c2_second (key : List Nat) :
    simple_token_search key (c2store key) "alice@other.com" ≠ [] := by
  by_cases hbranch : (isFullEmail (pyStrip "alice@other.com") &&
      !(exact_matches key (c2store key) "alice@other.com").isEmpty) = true
  · unfold simple_token_search
    rw [if_neg (by decide), if_pos hbranch]
    rw [Bool.and_eq_true, Bool.not_eq_true'] at hbranch
    intro hc
    rw [hc] at hbranch
    simp at hbranch
  · unfold simple_token_search
    rw [if_neg (by decide), if_neg hbranch]
    refine List.ne_nil_of_mem
      (fallback_hit key (c2store key) "alice@other.com" "m1" "sender" "alice" ?_
        (by decide) (by simp))
    rw [c2store_eq]
    exact mem_storeSearchTokens key "m1" "alice@example.com" "carol@dest.net" "Hi" "Meet at 5"
      "sender" "alice@example.com" "alice" (by simp) (by decide)

/-- C2 counterexample: in the scenario store, the simple search for
`alice@other.com` is NOT empty — the exact lookup finds nothing for that
address, but the fallback token expansion matches the stored message via
the shared token `alice` from the sender's local part. -/
theorem search_other_address_not_empty :
    simple_token_search (strBytes "k2") (c2store (strBytes "k2")) "alice@other.com" ≠ [] :=
  c2_second (strBytes "k2")

/-- C2 amended: after inserting the scenario message, the search for
`alice@example.com` yields a candidate set containing the message id, and
the search for `alice@other.com` yields a non-empty candidate set as well
(partial matching on shared tokens), not the empty result claimed. -/
theorem exact_email_search_scenario (key : List Nat) :
    "m1" ∈ simple_token_search key (c2store key) "alice@example.com" ∧
    simple_token_search key (c2store key) "alice@other.com" ≠ [] :=
  ⟨c2_first key, c2_second key⟩

/-! ## C6: the token hash refines the spec's TokenHash -/

lemma sha256_length (msg : List Nat) : (sha256 msg).length = 32 := by
  simp [sha256, wordBytes]

lemma hmacSha256_length (key msg : List Nat) : (hmacSha256 key msg).length = 32 := by
  unfold hmacSha256
  exact sha256_length _

lemma xorBytes_length (a b : List Nat) : (xorBytes a b).length = min a.length b.length := by
  simp [xorBytes]

lemma pbkdf2Iter_length (pwd : List Nat) (n : Nat) (u acc : List Nat)
    (h : acc.length = 32) : (pbkdf2Iter pwd n u acc).length = 32 := by
  induction n generalizing u acc with
  | zero => exact h
  | succ n ih =>
      unfold pbkdf2Iter
      exact ih _ _ (by rw [xorBytes_length, h, hmacSha256_length]; exact Nat.min_self 32)

lemma pbkdf2Sha256_length (pwd salt : List Nat) (iters : Nat) :
    (pbkdf2Sha256 pwd salt iters).length = 32 := by
  unfold pbkdf2Sha256
  exact pbkdf2Iter_length _ _ _ _ (hmacSha256_length _ _)

/-- The code truncates the derived key with `[:32]`, but PBKDF2-HMAC-SHA256 with
the default dkLen already returns exactly 32 bytes, so the truncation is the
identity and the code's token key IS the spec's `K_t`. -/
lemma deriveTokenKey_eq (encKey : List Nat) :
    deriveTokenKey encKey = pbkdf2Sha256 encKey (strBytes "search_tokens") 100000 := by
  unfold deriveTokenKey
  rw [← pbkdf2Sha256_length encKey (strBytes "search_tokens") 100000]
  exact List.take_length _

lemma hexdigestChars_length (bs : List Nat) : (hexdigestChars bs).length = 2 * bs.length := by
  induction bs with
  | nil => rfl
  | cons b t ih =>
      have hcons : hexdigestChars (b :: t) = byteHex b ++ hexdigestChars t := rfl
      rw [hcons, List.length_append, ih, List.length_cons]
      show 2 + 2 * t.length = 2 * (t.length + 1)
      omega

lemma hexChar_hex (n : Nat) (h : n < 16) : isHexLower (hexChar n) = true := by
  interval_cases n <;> decide

lemma mem_hexdigestChars_hex (bs : List Nat) (c : Char) (h : c ∈ hexdigestChars bs) :
    isHexLower c = true := by
  unfold hexdigestChars at h
  rw [List.mem_flatMap] at h
  obtain ⟨b, _, hc⟩ := h
  simp only [byteHex, List.mem_cons, List.not_mem_nil, or_false] at hc
  rcases hc with rfl | rfl
  · exact hexChar_hex _ (Nat.mod_lt _ (by decide))
  · exact hexChar_hex _ (Nat.mod_lt _ (by decide))

/-- C6: for every field key, source and token, `_hash_token` applied to the
key derived in `EmailDB.__init__` computes exactly the spec's
`TokenHash(source, token) = hex(HMAC-SHA256(K_t, source + ":" + token))[0..16]`
with `K_t = PBKDF2-HMAC-SHA256(K_f, "search_tokens", 100000)`; the result is
16 characters long and all of them are lowercase hex digits. -/
theorem token_hash_refines_spec (fieldKey : List Nat) (source token : String) :
    hash_token (deriveTokenKey fieldKey) token source = TokenHashSpec fieldKey source token ∧
    (hash_token (deriveTokenKey fieldKey) token source).length = 16 ∧
    ∀ c ∈ (hash_token (deriveTokenKey fieldKey) token source).data, isHexLower c = true := by
  refine ⟨?_, ?_, ?_⟩
  · unfold hash_token TokenHashSpec
    rw [deriveTokenKey_eq]
  · show (List.take 16 (hexdigestChars (hmacSha256 (deriveTokenKey fieldKey)
      (strBytes (source ++ ":" ++ token))))).length = 16
    rw [List.length_take, hexdigestChars_length, hmacSha256_length]
    decide
  · intro c hc
    exact mem_hexdigestChars_hex _ _ (List.take_subset _ _ hc)


end VaultBox
